import Mathlib

/-!
Verification of the redis-backed cache with call instrumentation
(`0x02-redis_basic/exercise.py`).

The embedding models the external key-value store (spec §6) as a map from
string keys to values that are either byte strings or lists of byte strings.
Byte sequences are identified with their UTF-8 text content (`Bytes := String`):
every byte value the program produces or consumes is decoded as UTF-8 text,
so the identification is faithful on all reachable values.

Python's builtins `str(int)` / `int(bytes)` (used by the redis counter and by
`Cache.get_int`) are modelled by an explicit decimal printer and parser.
Fallible operations return `Except PyErr`; a raised exception carries the
store state reached so far (redis effects are never rolled back).
-/

namespace RedisCache

/-- Byte sequences, identified with their UTF-8 text content. -/
abbrev Bytes := String

/-- A value held at one redis key: either a byte string or a list (redis
string vs list type; using an operation of the wrong kind raises WRONGTYPE). -/
inductive RVal : Type where
  | str (b : Bytes)
  | list (l : List Bytes)
deriving DecidableEq

/-- The whole backing store: one shared database, as `redis.Redis()`
connects every component to the same db. -/
abbrev RedisState := String → Option RVal

/-- Python-level exceptions that the modelled code can raise. -/
inductive PyErr : Type where
  | wrongType
  | valueError
  | typeError
  | attributeError
deriving DecidableEq

/-- The value kinds `Cache.store` accepts: `Union[str, bytes, int, float]`.
A float is represented by its canonical Python `repr` string (Python
guarantees `float(repr(x)) == x`, so a float is determined by its repr). -/
inductive PyVal : Type where
  | str (s : String)
  | bytes (b : Bytes)
  | int (n : Int)
  | float (r : String)
deriving DecidableEq

deriving instance DecidableEq for Except

/-! ### Decimal printing and parsing (Python `str(int)` / `int(bytes)`) -/

/-- Fuel-driven most-significant-first decimal digits of `n`; `natDigitsAux
fuel n` is correct whenever `n ≤ fuel` (proved below against `Nat.digits`). -/
def natDigitsAux : Nat → Nat → List Nat
  | 0, _ => []
  | fuel + 1, n => if n = 0 then [] else natDigitsAux fuel (n / 10) ++ [n % 10]

/-- Modelled from the spec: Python `str` of a natural number (base-10, no
sign, no leading zeros, `"0"` for zero). -/
def natToStr (n : Nat) : String :=
  if n = 0 then "0" else String.mk ((natDigitsAux n n).map Nat.digitChar)

/-- Modelled from the spec: Python `str` of an integer (optional minus sign
followed by the decimal digits). -/
def intToStr : Int → String
  | Int.ofNat n => natToStr n
  | Int.negSucc m => String.mk ('-' :: (natToStr (m + 1)).data)

/-- Numeric value of a decimal digit character, if it is one. -/
def digitVal? (c : Char) : Option Nat :=
  if ('0' : Char) ≤ c ∧ c ≤ ('9' : Char) then some (c.toNat - 48) else none

/-- Digits of a character list, if every character is a decimal digit. -/
def digitsOfChars : List Char → Option (List Nat)
  | [] => some []
  | c :: cs =>
    match digitVal? c, digitsOfChars cs with
    | some d, some ds => some (d :: ds)
    | _, _ => none

/-- Accumulating base-10 value of a most-significant-first digit list. -/
def decAcc (a : Nat) : List Nat → Nat
  | [] => a
  | d :: ds => decAcc (10 * a + d) ds

/-- Modelled from the spec: Python `int()` on an unsigned decimal string
(nonempty, all digits). -/
def parseNat? (cs : List Char) : Option Nat :=
  match digitsOfChars cs with
  | some (d :: ds) => some (decAcc 0 (d :: ds))
  | _ => none

/-- Modelled from the spec: Python `int()` applied to the raw bytes of a
stored value — base-10 parse with an optional leading minus sign, raising
`ValueError` (here: `none`) on anything else. -/
def parseInt? (s : String) : Option Int :=
  match s.data with
  | [] => none
  | c :: cs =>
    if c = '-' then (parseNat? cs).map (fun n => -(Int.ofNat n))
    else (parseNat? (c :: cs)).map (fun n => Int.ofNat n)

theorem decAcc_append (l : List Nat) (a d : Nat) :
    decAcc a (l ++ [d]) = 10 * decAcc a l + d := by
  induction l generalizing a with
  | nil => simp [decAcc]
  | cons x xs ih =>
    simp only [List.cons_append, decAcc]
    exact ih (10 * a + x)

theorem decAcc_reverse_ofDigits (l : List Nat) :
    decAcc 0 l.reverse = Nat.ofDigits 10 l := by
  induction l with
  | nil => simp [decAcc, Nat.ofDigits]
  | cons d ds ih =>
    rw [List.reverse_cons, decAcc_append, ih, Nat.ofDigits_cons]
    ring

theorem digitVal?_digitChar {d : Nat} (hd : d < 10) :
    digitVal? (Nat.digitChar d) = some d := by
  interval_cases d <;> rfl

theorem digitsOfChars_map (ds : List Nat) (h : ∀ d ∈ ds, d < 10) :
    digitsOfChars (ds.map Nat.digitChar) = some ds := by
  induction ds with
  | nil => rfl
  | cons d rest ih =>
    have h1 : d < 10 := h d (List.mem_cons_self d rest)
    have h2 : ∀ x ∈ rest, x < 10 := fun x hx => h x (List.mem_cons_of_mem d hx)
    simp only [List.map_cons, digitsOfChars, digitVal?_digitChar h1, ih h2]

theorem natDigitsAux_eq (fuel : Nat) :
    ∀ n, n ≤ fuel → natDigitsAux fuel n = (Nat.digits 10 n).reverse := by
  induction fuel with
  | zero =>
    intro n hn
    have : n = 0 := Nat.le_zero.mp hn
    subst this
    simp [natDigitsAux]
  | succ f ih =>
    intro n hn
    by_cases h0 : n = 0
    · subst h0; simp [natDigitsAux]
    · have hpos : 0 < n := Nat.pos_of_ne_zero h0
      have hdiv : n / 10 ≤ f := by
        have : n / 10 < n := Nat.div_lt_self hpos (by omega)
        omega
      rw [natDigitsAux, if_neg h0, ih (n / 10) hdiv,
        Nat.digits_def' (by omega : (1 : Nat) < 10) hpos, List.reverse_cons]

theorem parseNat?_natToStr (n : Nat) : parseNat? (natToStr n).data = some n := by
  by_cases h0 : n = 0
  · subst h0; rfl
  · have hdata : (natToStr n).data = ((Nat.digits 10 n).reverse.map Nat.digitChar) := by
      rw [natToStr, if_neg h0, natDigitsAux_eq n n le_rfl]
    have hlt : ∀ d ∈ (Nat.digits 10 n).reverse, d < 10 := by
      intro d hd
      exact Nat.digits_lt_base (by omega) (List.mem_reverse.mp hd)
    have hnil : (Nat.digits 10 n).reverse ≠ [] := by
      simp [Nat.digits_ne_nil_iff_ne_zero, h0]
    rw [hdata]
    cases hrev : (Nat.digits 10 n).reverse with
    | nil => exact absurd hrev hnil
    | cons d ds =>
      have hval : decAcc 0 (d :: ds) = n := by
        rw [← hrev, decAcc_reverse_ofDigits, Nat.ofDigits_digits]
      rw [parseNat?, digitsOfChars_map (d :: ds) (hrev ▸ hlt)]
      simp [hval]

theorem digitChar_ne_dash {d : Nat} (hd : d < 10) : Nat.digitChar d ≠ '-' := by
  interval_cases d <;> decide

theorem parseInt?_intToStr (z : Int) : parseInt? (intToStr z) = some z := by
  cases z with
  | ofNat n =>
    by_cases h0 : n = 0
    · subst h0; rfl
    · have hdata : (natToStr n).data = ((Nat.digits 10 n).reverse.map Nat.digitChar) := by
        rw [natToStr, if_neg h0, natDigitsAux_eq n n le_rfl]
      have hp := parseNat?_natToStr n
      show parseInt? (natToStr n) = some (Int.ofNat n)
      rw [parseInt?]
      cases hd : (natToStr n).data with
      | nil => rw [hd] at hp; exact absurd hp (by simp [parseNat?, digitsOfChars])
      | cons c cs =>
        have hc : c ≠ '-' := by
          rw [hdata] at hd
          cases hrev : (Nat.digits 10 n).reverse with
          | nil =>
            rw [hrev] at hd; exact absurd hd (by simp)
          | cons d ds =>
            rw [hrev] at hd
            have : c = Nat.digitChar d := by
              have h3 := congrArg (fun l => l.headI) hd
              simpa using h3.symm
            rw [this]
            exact digitChar_ne_dash
              (Nat.digits_lt_base (by omega)
                (List.mem_reverse.mp (hrev ▸ List.mem_cons_self d ds)))
        rw [hd] at hp
        simp only [if_neg hc, hp, Option.map_some]
        rfl
  | negSucc m =>
    have hp := parseNat?_natToStr (m + 1)
    show parseInt? (String.mk ('-' :: (natToStr (m + 1)).data)) = some (Int.negSucc m)
    rw [parseInt?]
    simp only [if_pos rfl, hp, Option.map_some]
    congr 1

/-! ### The key-value store collaborator (spec §6, redis primitives) -/

/-- The empty database. -/
def emptyState : RedisState := fun _ => none

/-- Point update of the store. -/
def setKey (k : String) (v : RVal) (st : RedisState) : RedisState :=
  fun q => if q = k then some v else st q

/-- `SET key value`: overwrites any previous value of any type. -/
def redisSet (k : String) (b : Bytes) (st : RedisState) : RedisState :=
  setKey k (RVal.str b) st

/-- `GET key`: bytes of a string key, absent if missing, WRONGTYPE on a list.
Read-only. -/
def redisGet (k : String) (st : RedisState) : Except PyErr (Option Bytes) :=
  match st k with
  | none => Except.ok none
  | some (RVal.str b) => Except.ok (some b)
  | some (RVal.list _) => Except.error PyErr.wrongType

/-- `INCR key`: treats an absent key as 0 then adds one, storing the decimal
form; errors on a list key or a non-integer string. Returns the new value. -/
def redisIncr (k : String) (st : RedisState) : RedisState × Except PyErr Int :=
  match st k with
  | none => (redisSet k (intToStr 1) st, Except.ok 1)
  | some (RVal.str b) =>
    match parseInt? b with
    | some n => (redisSet k (intToStr (n + 1)) st, Except.ok (n + 1))
    | none => (st, Except.error PyErr.valueError)
  | some (RVal.list _) => (st, Except.error PyErr.wrongType)

/-- `RPUSH key value`: appends to the end of the list, creating it if absent;
WRONGTYPE on a string key. Returns the new length. -/
def redisRpush (k : String) (v : Bytes) (st : RedisState) : RedisState × Except PyErr Nat :=
  match st k with
  | none => (setKey k (RVal.list [v]) st, Except.ok 1)
  | some (RVal.list l) => (setKey k (RVal.list (l ++ [v])) st, Except.ok (l.length + 1))
  | some (RVal.str _) => (st, Except.error PyErr.wrongType)

/-- `LRANGE key 0 -1`, the only range the source uses: the whole list,
`[]` if the key is absent, WRONGTYPE on a string key. Read-only. -/
def redisLrangeAll (k : String) (st : RedisState) : Except PyErr (List Bytes) :=
  match st k with
  | none => Except.ok []
  | some (RVal.list l) => Except.ok l
  | some (RVal.str _) => Except.error PyErr.wrongType

/-- `FLUSHDB`: wipes every key of the shared database. -/
def flushdb (_st : RedisState) : RedisState := fun _ => none

/-! ### Python-level encoding of values and argument tuples -/

/-- A single-quote character, used by Python `repr` of strings and bytes. -/
def squote : String := String.mk [Char.ofNat 39]

/-- Modelled from the spec: Python `repr` of a storable value, as it appears
inside `str(args)` (quote escaping inside string content is not modelled;
the log entries the claims mention contain none). -/
def reprPyVal : PyVal → String
  | PyVal.str s => squote ++ s ++ squote
  | PyVal.bytes b => "b" ++ squote ++ b ++ squote
  | PyVal.int n => intToStr n
  | PyVal.float r => r

/-- Modelled from the spec: Python `str(args)` — the textual representation
of the positional-argument tuple, with the trailing comma of a 1-tuple. -/
def strArgs (args : List PyVal) : String :=
  match args with
  | [] => "()"
  | [a] => "(" ++ reprPyVal a ++ ",)"
  | _ => "(" ++ String.intercalate ", " (args.map reprPyVal) ++ ")"

/-- Modelled from the spec (§6 `set(key, value: string|bytes|int|float)`):
the byte encoding the redis client applies to a storable value. -/
def encodeValue : PyVal → Bytes
  | PyVal.str s => s
  | PyVal.bytes b => b
  | PyVal.int n => intToStr n
  | PyVal.float r => r

/-! ### Receivers and the decorators -/

/-- What the receiver's `_redis` attribute looks like: absent, present but
not a `redis.Redis` instance, or a genuine client. -/
inductive Handle : Type where
  | missing
  | wrongType
  | redisClient
deriving DecidableEq

/-- The `self` argument of a wrapped operation: whether it is a `Cache`
instance, and the state of its `_redis` attribute. -/
structure Receiver : Type where
  isCache : Bool
  handle : Handle
deriving DecidableEq

/-- The guard `isinstance(self, Cache) and isinstance(self._redis, redis.Redis)`
used by both decorators. The `and` short-circuits, so a non-Cache receiver is
never asked for `_redis`; but a Cache receiver with the attribute missing
raises AttributeError from the attribute access itself. -/
def checkRecognized (r : Receiver) : Except PyErr Bool :=
  if r.isCache then
    match r.handle with
    | Handle.missing => Except.error PyErr.attributeError
    | Handle.wrongType => Except.ok false
    | Handle.redisClient => Except.ok true
  else Except.ok false

/-- A `Cache` built by `Cache.__init__`: `self._redis = redis.Redis()`. -/
def recognizedReceiver : Receiver := ⟨true, Handle.redisClient⟩

/-- Keyword arguments of a call. -/
abbrev Kwargs := List (String × PyVal)

/-- A bound operation as the decorators see it: receiver, positional args,
keyword args, store state in; store state and result (or raised error) out. -/
abbrev Method := Receiver → List PyVal → Kwargs → RedisState → RedisState × Except PyErr PyVal

/-- The `count_calls` decorator: increment the counter keyed by the
operation's qualified name (when the receiver is recognized), then invoke
the wrapped operation, returning its result unchanged. -/
def count_calls (qn : String) (method : Method) : Method :=
  fun self args kwargs st =>
    match checkRecognized self with
    | Except.error e => (st, Except.error e)
    | Except.ok true =>
      match redisIncr qn st with
      | (st1, Except.ok _) => method self args kwargs st1
      | (st1, Except.error e) => (st1, Except.error e)
    | Except.ok false => method self args kwargs st

/-- The `call_history` decorator: invoke the wrapped operation; on success,
when the receiver is recognized, rpush `str(args)` onto `"<qn>:inputs"` and
then the result onto `"<qn>:outputs"`; return the result unchanged. -/
def call_history (qn : String) (method : Method) : Method :=
  fun self args kwargs st =>
    match method self args kwargs st with
    | (st1, Except.error e) => (st1, Except.error e)
    | (st1, Except.ok rv) =>
      match checkRecognized self with
      | Except.error e => (st1, Except.error e)
      | Except.ok true =>
        match redisRpush (qn ++ ":inputs") (strArgs args) st1 with
        | (st2, Except.error e) => (st2, Except.error e)
        | (st2, Except.ok _) =>
          match redisRpush (qn ++ ":outputs") (encodeValue rv) st2 with
          | (st3, Except.error e) => (st3, Except.error e)
          | (st3, Except.ok _) => (st3, Except.ok rv)
      | Except.ok false => (st1, Except.ok rv)

/-- The undecorated body of `Cache.store`: generate a fresh key (`uuid4`,
supplied here as the `freshKey` parameter since it is external randomness),
`SET` the encoded value under it, return the key. The single `data`
parameter may be bound positionally or by keyword. -/
def store_raw (freshKey : String) : Method :=
  fun _self args kwargs st =>
    match args, kwargs with
    | [data], [] => (redisSet freshKey (encodeValue data) st, Except.ok (PyVal.str freshKey))
    | [], [(kw, data)] =>
      if kw = "data" then (redisSet freshKey (encodeValue data) st, Except.ok (PyVal.str freshKey))
      else (st, Except.error PyErr.typeError)
    | _, _ => (st, Except.error PyErr.typeError)

/-- `Cache.store` as exposed: `@count_calls` over `@call_history` over the
raw body; `functools.wraps` makes both decorators see the qualified name
`"Cache.store"`. -/
def Cache.store (freshKey : String) : Method :=
  count_calls "Cache.store" (call_history "Cache.store" (store_raw freshKey))

/-- `Cache.__init__`: connects to the shared database and `FLUSHDB`s it. -/
def Cache.init (st : RedisState) : RedisState := flushdb st

/-- `Cache.get(key)` with no decode function: returns the raw value,
`None` when the key is absent. -/
def Cache.getRaw (key : String) (st : RedisState) : RedisState × Except PyErr (Option Bytes) :=
  (st, redisGet key st)

/-- `Cache.get(key, fn)` with a decode function: `return fn(data)` — the
function receives the raw optional value directly, with no nil-guard. -/
def Cache.getWith {V : Type} (key : String) (fn : Option Bytes → Except PyErr V)
    (st : RedisState) : RedisState × Except PyErr V :=
  match redisGet key st with
  | Except.error e => (st, Except.error e)
  | Except.ok data => (st, fn data)

/-- `Cache.get_str`: `get` without a decode function, then `None` passes
through and a present value is decoded as UTF-8 (the identity under the
byte model). -/
def Cache.get_str (key : String) (st : RedisState) : RedisState × Except PyErr (Option String) :=
  match redisGet key st with
  | Except.error e => (st, Except.error e)
  | Except.ok none => (st, Except.ok none)
  | Except.ok (some b) => (st, Except.ok (some b))

/-- `Cache.get_int`: `get` without a decode function, then `None` passes
through and a present value goes through `int(value)` (ValueError if it is
not a decimal integer). -/
def Cache.get_int (key : String) (st : RedisState) : RedisState × Except PyErr (Option Int) :=
  match redisGet key st with
  | Except.error e => (st, Except.error e)
  | Except.ok none => (st, Except.ok none)
  | Except.ok (some b) =>
    match parseInt? b with
    | some n => (st, Except.ok (some n))
    | none => (st, Except.error PyErr.valueError)

/-- Modelled from the spec: Python `float()` applied to the raw bytes of a
stored value; on the canonical repr of a float it yields that float back,
and on `None` it raises TypeError. -/
def pyFloat (data : Option Bytes) : Except PyErr PyVal :=
  match data with
  | none => Except.error PyErr.typeError
  | some b => Except.ok (PyVal.float b)

/-- `replay(method)`: reads both history logs of the operation's qualified
name with `LRANGE 0 -1` and renders the header line followed by one line per
zipped input/output pair. The returned list is what gets printed, in order;
the state component records that nothing was written. -/
def replay (qn : String) (st : RedisState) : RedisState × Except PyErr (List String) :=
  match redisLrangeAll (qn ++ ":inputs") st with
  | Except.error e => (st, Except.error e)
  | Except.ok inputs =>
    match redisLrangeAll (qn ++ ":outputs") st with
    | Except.error e => (st, Except.error e)
    | Except.ok outputs =>
      (st, Except.ok ((qn ++ " was called " ++ natToStr inputs.length ++ " times:") ::
        (inputs.zip outputs).map (fun p => qn ++ "(*" ++ p.1 ++ ") -> " ++ p.2)))

/-- A sequence of `Cache.store` calls on a live cache, one fresh key and one
positional data argument per call; returns the final state and the list of
per-call outcomes. -/
def runStores : List (String × PyVal) → RedisState → RedisState × List (Except PyErr PyVal)
  | [], st => (st, [])
  | c :: rest, st =>
    let r := Cache.store c.1 recognizedReceiver [c.2] [] st
    let rr := runStores rest r.1
    (rr.1, r.2 :: rr.2)

/-- The counter key of `Cache.store`: the bare qualified name. -/
def storeCnt : String := "Cache.store"

/-- The inputs log key of `Cache.store`. -/
def storeInp : String := "Cache.store:inputs"

/-- The outputs log key of `Cache.store`. -/
def storeOut : String := "Cache.store:outputs"

/-- The counter named `k` reads as `m`: absent meaning zero, or storing the
decimal form of `m`. -/
def counterIs (st : RedisState) (k : String) (m : Nat) : Prop :=
  (st k = none ∧ m = 0) ∨ st k = some (RVal.str (natToStr m))

/-- The list named `k` holds entries `L`: absent meaning empty. -/
def listIs (st : RedisState) (k : String) (L : List Bytes) : Prop :=
  (st k = none ∧ L = []) ∨ st k = some (RVal.list L)

/-! ### Basic lemmas about the store primitives -/

theorem setKey_same (k : String) (v : RVal) (st : RedisState) :
    setKey k v st k = some v := by
  simp [setKey]

theorem setKey_ne {q k : String} (h : q ≠ k) (v : RVal) (st : RedisState) :
    setKey k v st q = st q := by
  simp [setKey, h]

theorem intToStr_ofNat (m : Nat) : intToStr (Int.ofNat m) = natToStr m := rfl

theorem incr_of_counterIs {st : RedisState} {k : String} {m : Nat}
    (h : counterIs st k m) :
    redisIncr k st = (setKey k (RVal.str (natToStr (m + 1))) st, Except.ok (Int.ofNat m + 1)) := by
  have hs : intToStr (Int.ofNat m + 1) = natToStr (m + 1) := rfl
  rcases h with ⟨h0, hm⟩ | h1
  · subst hm
    simp only [redisIncr, h0]
    rfl
  · have hp : parseInt? (natToStr m) = some (Int.ofNat m) := by
      have h2 := parseInt?_intToStr (Int.ofNat m)
      rwa [intToStr_ofNat] at h2
    simp only [redisIncr, h1, hp, redisSet, hs]

theorem rpush_of_listIs {st : RedisState} {k : String} {L : List Bytes}
    (h : listIs st k L) (v : Bytes) :
    redisRpush k v st = (setKey k (RVal.list (L ++ [v])) st, Except.ok (L.length + 1)) := by
  rcases h with ⟨h0, hL⟩ | h1
  · subst hL
    rw [redisRpush, h0]
    rfl
  · rw [redisRpush, h1]

theorem lrange_of_listIs {st : RedisState} {k : String} {L : List Bytes}
    (h : listIs st k L) : redisLrangeAll k st = Except.ok L := by
  rcases h with ⟨h0, hL⟩ | h1
  · subst hL
    rw [redisLrangeAll, h0]
  · rw [redisLrangeAll, h1]

theorem counterIs_setKey_ne {st : RedisState} {k q : String} {m : Nat}
    (h : counterIs st k m) (hne : k ≠ q) (v : RVal) :
    counterIs (setKey q v st) k m := by
  rcases h with ⟨h0, hm⟩ | h1
  · exact Or.inl ⟨by rw [setKey_ne hne, h0], hm⟩
  · exact Or.inr (by rw [setKey_ne hne, h1])

theorem listIs_setKey_ne {st : RedisState} {k q : String} {L : List Bytes}
    (h : listIs st k L) (hne : k ≠ q) (v : RVal) :
    listIs (setKey q v st) k L := by
  rcases h with ⟨h0, hL⟩ | h1
  · exact Or.inl ⟨by rw [setKey_ne hne, h0], hL⟩
  · exact Or.inr (by rw [setKey_ne hne, h1])

theorem inp_ne_out (qn : String) : (qn ++ ":inputs") ≠ (qn ++ ":outputs") := by
  intro h
  have h1 := congrArg String.length h
  simp [String.length_append] at h1
  exact absurd h1 (by decide)

/-! ### Behavior of the decorators -/

theorem count_calls_rec (qn : String) (method : Method) (self : Receiver)
    (args : List PyVal) (kwargs : Kwargs) (st st1 : RedisState) (n : Int)
    (hrec : checkRecognized self = Except.ok true)
    (hincr : redisIncr qn st = (st1, Except.ok n)) :
    count_calls qn method self args kwargs st = method self args kwargs st1 := by
  rw [count_calls, hrec, hincr]

theorem call_history_ok (qn : String) (method : Method) (self : Receiver)
    (args : List PyVal) (kwargs : Kwargs) (st st1 : RedisState) (rv : PyVal)
    (L1 L2 : List Bytes)
    (hrec : checkRecognized self = Except.ok true)
    (hm : method self args kwargs st = (st1, Except.ok rv))
    (h1 : listIs st1 (qn ++ ":inputs") L1)
    (h2 : listIs st1 (qn ++ ":outputs") L2) :
    call_history qn method self args kwargs st =
      (setKey (qn ++ ":outputs") (RVal.list (L2 ++ [encodeValue rv]))
        (setKey (qn ++ ":inputs") (RVal.list (L1 ++ [strArgs args])) st1),
       Except.ok rv) := by
  have h2b : listIs (setKey (qn ++ ":inputs") (RVal.list (L1 ++ [strArgs args])) st1)
      (qn ++ ":outputs") L2 :=
    listIs_setKey_ne h2 (inp_ne_out qn).symm _
  simp only [call_history, hm, hrec, rpush_of_listIs h1, rpush_of_listIs h2b]

theorem count_calls_skip (qn : String) (method : Method) (self : Receiver)
    (args : List PyVal) (kwargs : Kwargs) (st : RedisState)
    (hrec : checkRecognized self = Except.ok false) :
    count_calls qn method self args kwargs st = method self args kwargs st := by
  rw [count_calls, hrec]

theorem call_history_skip (qn : String) (method : Method) (self : Receiver)
    (args : List PyVal) (kwargs : Kwargs) (st : RedisState)
    (hrec : checkRecognized self = Except.ok false) :
    call_history qn method self args kwargs st = method self args kwargs st := by
  rw [call_history, hrec]
  rcases hm : method self args kwargs st with ⟨st1, r⟩
  cases r <;> rfl

/-! ### The full behavior of one `Cache.store` call -/

theorem store_step (k : String) (v : PyVal) (st : RedisState) (m : Nat)
    (L1 L2 : List Bytes)
    (_hk1 : k ≠ storeCnt) (hk2 : k ≠ storeInp) (hk3 : k ≠ storeOut)
    (hc : counterIs st storeCnt m) (hi : listIs st storeInp L1)
    (ho : listIs st storeOut L2) :
    Cache.store k recognizedReceiver [v] [] st =
      (setKey storeOut (RVal.list (L2 ++ [k]))
        (setKey storeInp (RVal.list (L1 ++ [strArgs [v]]))
          (setKey k (RVal.str (encodeValue v))
            (setKey storeCnt (RVal.str (natToStr (m + 1))) st))),
       Except.ok (PyVal.str k)) := by
  have hio : storeInp ≠ storeOut := by decide
  have hic : storeInp ≠ storeCnt := by decide
  have hoc : storeOut ≠ storeCnt := by decide
  have hincr : redisIncr storeCnt st =
      (setKey storeCnt (RVal.str (natToStr (m + 1))) st, Except.ok (Int.ofNat m + 1)) :=
    incr_of_counterIs hc
  have e1 : Cache.store k recognizedReceiver [v] [] st =
      call_history "Cache.store" (store_raw k) recognizedReceiver [v] []
        (setKey storeCnt (RVal.str (natToStr (m + 1))) st) :=
    count_calls_rec "Cache.store" _ _ _ _ _ _ _ rfl hincr
  rw [e1]
  have hraw : store_raw k recognizedReceiver [v] []
      (setKey storeCnt (RVal.str (natToStr (m + 1))) st) =
      (setKey k (RVal.str (encodeValue v))
        (setKey storeCnt (RVal.str (natToStr (m + 1))) st),
       Except.ok (PyVal.str k)) := rfl
  have hi2 : listIs (setKey k (RVal.str (encodeValue v))
      (setKey storeCnt (RVal.str (natToStr (m + 1))) st)) storeInp L1 :=
    listIs_setKey_ne (listIs_setKey_ne hi hic _) (fun h => hk2 h.symm) _
  have ho2 : listIs (setKey k (RVal.str (encodeValue v))
      (setKey storeCnt (RVal.str (natToStr (m + 1))) st)) storeOut L2 :=
    listIs_setKey_ne (listIs_setKey_ne ho hoc _) (fun h => hk3 h.symm) _
  have e2 := call_history_ok "Cache.store" (store_raw k) recognizedReceiver [v] []
    (setKey storeCnt (RVal.str (natToStr (m + 1))) st)
    (setKey k (RVal.str (encodeValue v)) (setKey storeCnt (RVal.str (natToStr (m + 1))) st))
    (PyVal.str k) L1 L2 rfl hraw hi2 ho2
  rw [e2]
  rfl

theorem runStores_spec (calls : List (String × PyVal)) :
    ∀ (st : RedisState) (m : Nat) (L1 L2 : List Bytes),
    (∀ p ∈ calls, p.1 ≠ storeCnt ∧ p.1 ≠ storeInp ∧ p.1 ≠ storeOut) →
    counterIs st storeCnt m → listIs st storeInp L1 → listIs st storeOut L2 →
    counterIs (runStores calls st).1 storeCnt (m + calls.length) ∧
    listIs (runStores calls st).1 storeInp (L1 ++ calls.map (fun p => strArgs [p.2])) ∧
    listIs (runStores calls st).1 storeOut (L2 ++ calls.map (fun p => p.1)) ∧
    (runStores calls st).2 = calls.map (fun p => Except.ok (PyVal.str p.1)) := by
  induction calls with
  | nil =>
    intro st m L1 L2 _ hc hi ho
    simpa [runStores] using ⟨hc, hi, ho⟩
  | cons c rest ih =>
    intro st m L1 L2 hkeys hc hi ho
    obtain ⟨hk1, hk2, hk3⟩ := hkeys c (List.mem_cons_self c rest)
    have hstep := store_step c.1 c.2 st m L1 L2 hk1 hk2 hk3 hc hi ho
    have hc1 : counterIs (setKey storeOut (RVal.list (L2 ++ [c.1]))
        (setKey storeInp (RVal.list (L1 ++ [strArgs [c.2]]))
          (setKey c.1 (RVal.str (encodeValue c.2))
            (setKey storeCnt (RVal.str (natToStr (m + 1))) st)))) storeCnt (m + 1) := by
      right
      rw [setKey_ne (show storeCnt ≠ storeOut by decide),
        setKey_ne (show storeCnt ≠ storeInp by decide),
        setKey_ne (Ne.symm hk1), setKey_same]
    have hi1 : listIs (setKey storeOut (RVal.list (L2 ++ [c.1]))
        (setKey storeInp (RVal.list (L1 ++ [strArgs [c.2]]))
          (setKey c.1 (RVal.str (encodeValue c.2))
            (setKey storeCnt (RVal.str (natToStr (m + 1))) st)))) storeInp
        (L1 ++ [strArgs [c.2]]) := by
      right
      rw [setKey_ne (show storeInp ≠ storeOut by decide), setKey_same]
    have ho1 : listIs (setKey storeOut (RVal.list (L2 ++ [c.1]))
        (setKey storeInp (RVal.list (L1 ++ [strArgs [c.2]]))
          (setKey c.1 (RVal.str (encodeValue c.2))
            (setKey storeCnt (RVal.str (natToStr (m + 1))) st)))) storeOut
        (L2 ++ [c.1]) := Or.inr (setKey_same _ _ _)
    have hrest := ih _ (m + 1) (L1 ++ [strArgs [c.2]]) (L2 ++ [c.1])
      (fun p hp => hkeys p (List.mem_cons_of_mem c hp)) hc1 hi1 ho1
    simp only [runStores, hstep]
    refine ⟨?_, ?_, ?_, ?_⟩
    · have hlen : m + (c :: rest).length = m + 1 + rest.length := by
        simp only [List.length_cons]
        omega
      rw [hlen]
      exact hrest.1
    · have h := hrest.2.1
      rw [List.append_assoc, List.singleton_append] at h
      rw [List.map_cons]
      exact h
    · have h := hrest.2.2.1
      rw [List.append_assoc, List.singleton_append] at h
      rw [List.map_cons]
      exact h
    · rw [List.map_cons]
      exact congrArg _ hrest.2.2.2

/-! ### Claim theorems -/

/-- C1: For every value of a supported kind (string, byte-sequence, integer,
floating-point) stored under a fresh key into a well-typed store state,
`store` returns that key, and retrieving the key with the matching decode
path yields the value back: `get_str` for strings, `get` with no decode
function for bytes, `get_int` for integers, and `get` with the float decoder
for floats; in particular `get_int(store(42)) = 42` and
`get_str(store("hello")) = "hello"` (see the witness). -/
theorem c1_store_retrieve_roundtrip (v : PyVal) (k : String) (st : RedisState)
    (m : Nat) (L1 L2 : List Bytes)
    (hk1 : k ≠ storeCnt) (hk2 : k ≠ storeInp) (hk3 : k ≠ storeOut)
    (hc : counterIs st storeCnt m) (hi : listIs st storeInp L1)
    (ho : listIs st storeOut L2) :
    (Cache.store k recognizedReceiver [v] [] st).2 = Except.ok (PyVal.str k) ∧
    (∀ s, v = PyVal.str s →
      Cache.get_str k (Cache.store k recognizedReceiver [v] [] st).1 =
        ((Cache.store k recognizedReceiver [v] [] st).1, Except.ok (some s))) ∧
    (∀ n : Int, v = PyVal.int n →
      Cache.get_int k (Cache.store k recognizedReceiver [v] [] st).1 =
        ((Cache.store k recognizedReceiver [v] [] st).1, Except.ok (some n))) ∧
    (∀ b, v = PyVal.bytes b →
      Cache.getRaw k (Cache.store k recognizedReceiver [v] [] st).1 =
        ((Cache.store k recognizedReceiver [v] [] st).1, Except.ok (some b))) ∧
    (∀ r, v = PyVal.float r →
      Cache.getWith k pyFloat (Cache.store k recognizedReceiver [v] [] st).1 =
        ((Cache.store k recognizedReceiver [v] [] st).1, Except.ok (PyVal.float r))) := by
  rw [store_step k v st m L1 L2 hk1 hk2 hk3 hc hi ho]
  have hread : (setKey storeOut (RVal.list (L2 ++ [k]))
      (setKey storeInp (RVal.list (L1 ++ [strArgs [v]]))
        (setKey k (RVal.str (encodeValue v))
          (setKey storeCnt (RVal.str (natToStr (m + 1))) st)))) k
      = some (RVal.str (encodeValue v)) := by
    rw [setKey_ne hk3, setKey_ne hk2, setKey_same]
  refine ⟨rfl, ?_, ?_, ?_, ?_⟩
  · rintro s rfl
    simp only [encodeValue] at hread
    simp only [Cache.get_str, redisGet, encodeValue, hread]
  · rintro n rfl
    simp only [encodeValue] at hread
    simp only [Cache.get_int, redisGet, encodeValue, hread, parseInt?_intToStr]
  · rintro b rfl
    simp only [encodeValue] at hread
    simp only [Cache.getRaw, redisGet, encodeValue, hread]
  · rintro r rfl
    simp only [encodeValue] at hread
    simp only [Cache.getWith, redisGet, encodeValue, hread, pyFloat]

/-- Witness for C1 at concrete inputs: `get_int(store(42))` yields 42 and
`get_str(store("hello"))` yields `"hello"`, starting from the empty store. -/
theorem c1_store_retrieve_roundtrip_witness :
    Cache.get_int "k1" (Cache.store "k1" recognizedReceiver [PyVal.int 42] [] emptyState).1 =
      ((Cache.store "k1" recognizedReceiver [PyVal.int 42] [] emptyState).1,
        Except.ok (some 42)) ∧
    Cache.get_str "k2" (Cache.store "k2" recognizedReceiver [PyVal.str "hello"] [] emptyState).1 =
      ((Cache.store "k2" recognizedReceiver [PyVal.str "hello"] [] emptyState).1,
        Except.ok (some "hello")) := by
  constructor
  · exact (c1_store_retrieve_roundtrip (PyVal.int 42) "k1" emptyState 0 [] []
      (by decide) (by decide) (by decide) (Or.inl ⟨rfl, rfl⟩) (Or.inl ⟨rfl, rfl⟩)
      (Or.inl ⟨rfl, rfl⟩)).2.2.1 42 rfl
  · exact (c1_store_retrieve_roundtrip (PyVal.str "hello") "k2" emptyState 0 [] []
      (by decide) (by decide) (by decide) (Or.inl ⟨rfl, rfl⟩) (Or.inl ⟨rfl, rfl⟩)
      (Or.inl ⟨rfl, rfl⟩)).2.1 "hello" rfl

/-- C2: After any sequence of sequential `store` calls on a fresh cache
(each call using a fresh key distinct from the three instrumentation keys),
the counter under `"Cache.store"` reads the number of calls, the inputs log
holds exactly the textual forms of each call's positional-argument tuple in
order, the outputs log holds exactly the returned keys in order (so both
logs have length n), and the i-th call returned the i-th key. -/
theorem c2_sequential_store_instrumentation (calls : List (String × PyVal))
    (st0 : RedisState)
    (hkeys : ∀ p ∈ calls, p.1 ≠ storeCnt ∧ p.1 ≠ storeInp ∧ p.1 ≠ storeOut) :
    counterIs (runStores calls (Cache.init st0)).1 storeCnt calls.length ∧
    listIs (runStores calls (Cache.init st0)).1 storeInp
      (calls.map (fun p => strArgs [p.2])) ∧
    listIs (runStores calls (Cache.init st0)).1 storeOut
      (calls.map (fun p => p.1)) ∧
    (runStores calls (Cache.init st0)).2 =
      calls.map (fun p => Except.ok (PyVal.str p.1)) := by
  have h := runStores_spec calls (Cache.init st0) 0 [] [] hkeys
    (Or.inl ⟨rfl, rfl⟩) (Or.inl ⟨rfl, rfl⟩) (Or.inl ⟨rfl, rfl⟩)
  simpa using h

/-- Witness for C2: two concrete calls on a fresh cache; the counter reads 2,
the logs hold the two argument tuples and the two keys, and each call
returned its key. -/
theorem c2_sequential_store_instrumentation_witness :
    counterIs (runStores [("k1", PyVal.int 5), ("k2", PyVal.int 7)]
      (Cache.init emptyState)).1 storeCnt 2 ∧
    listIs (runStores [("k1", PyVal.int 5), ("k2", PyVal.int 7)]
      (Cache.init emptyState)).1 storeInp ["(5,)", "(7,)"] ∧
    listIs (runStores [("k1", PyVal.int 5), ("k2", PyVal.int 7)]
      (Cache.init emptyState)).1 storeOut ["k1", "k2"] ∧
    (runStores [("k1", PyVal.int 5), ("k2", PyVal.int 7)] (Cache.init emptyState)).2 =
      [Except.ok (PyVal.str "k1"), Except.ok (PyVal.str "k2")] := by
  exact c2_sequential_store_instrumentation
    [("k1", PyVal.int 5), ("k2", PyVal.int 7)] emptyState (by decide)

/-- C3: Composition and ordering of the wrappers on `store`: (1) `store` is
exactly the counting wrapper outermost over the history wrapper over the raw
body; (2) under a recognized receiver the counting wrapper performs the
increment first and then runs the wrapped operation on the incremented
state, forwarding its outcome (success or failure) without rollback;
(3) concretely, when the later history append fails (inputs key holds a
string, so `RPUSH` raises WRONGTYPE), the whole call raises but the counter
has already been incremented and stays incremented. -/
theorem c3_counting_before_operation_no_rollback :
    (∀ k : String, Cache.store k =
      count_calls "Cache.store" (call_history "Cache.store" (store_raw k))) ∧
    (∀ (qn : String) (method : Method) (self : Receiver) (args : List PyVal)
      (kwargs : Kwargs) (st st1 : RedisState) (n : Int),
      checkRecognized self = Except.ok true →
      redisIncr qn st = (st1, Except.ok n) →
      count_calls qn method self args kwargs st = method self args kwargs st1) ∧
    (∀ (k : String) (v : PyVal) (st : RedisState) (m : Nat) (s : Bytes),
      k ≠ storeCnt → k ≠ storeInp →
      counterIs st storeCnt m → st storeInp = some (RVal.str s) →
      (Cache.store k recognizedReceiver [v] [] st).2 = Except.error PyErr.wrongType ∧
      (Cache.store k recognizedReceiver [v] [] st).1 storeCnt =
        some (RVal.str (natToStr (m + 1)))) := by
  refine ⟨fun _ => rfl, count_calls_rec, ?_⟩
  intro k v st m s hk1 hk2 hc hinp
  have hincr := incr_of_counterIs hc
  have e1 : Cache.store k recognizedReceiver [v] [] st =
      call_history "Cache.store" (store_raw k) recognizedReceiver [v] []
        (setKey storeCnt (RVal.str (natToStr (m + 1))) st) :=
    count_calls_rec _ _ _ _ _ _ _ _ rfl hincr
  rw [e1]
  have hraw : store_raw k recognizedReceiver [v] []
      (setKey storeCnt (RVal.str (natToStr (m + 1))) st) =
      (setKey k (RVal.str (encodeValue v))
        (setKey storeCnt (RVal.str (natToStr (m + 1))) st), Except.ok (PyVal.str k)) := rfl
  have hinp2 : (setKey k (RVal.str (encodeValue v))
      (setKey storeCnt (RVal.str (natToStr (m + 1))) st)) storeInp = some (RVal.str s) := by
    rw [setKey_ne (Ne.symm hk2), setKey_ne (show storeInp ≠ storeCnt by decide), hinp]
  have hpush : redisRpush ("Cache.store" ++ ":inputs") (strArgs [v])
      (setKey k (RVal.str (encodeValue v))
        (setKey storeCnt (RVal.str (natToStr (m + 1))) st)) =
      (setKey k (RVal.str (encodeValue v))
        (setKey storeCnt (RVal.str (natToStr (m + 1))) st),
       Except.error PyErr.wrongType) := by
    have hkey : ("Cache.store" ++ ":inputs" : String) = storeInp := rfl
    rw [hkey, redisRpush, hinp2]
  have hcr : checkRecognized recognizedReceiver = Except.ok true := rfl
  simp only [call_history, hraw, hcr, hpush]
  refine ⟨trivial, ?_⟩
  rw [setKey_ne (Ne.symm hk1), setKey_same]

/-- Witness for C3: on a store whose inputs log key wrongly holds a string,
a `store` call raises WRONGTYPE from the history append, yet the counter was
already incremented to 1 and is not rolled back. -/
theorem c3_counting_before_operation_no_rollback_witness :
    (Cache.store "kk" recognizedReceiver [PyVal.int 3] []
      (setKey storeInp (RVal.str "x") emptyState)).2 = Except.error PyErr.wrongType ∧
    (Cache.store "kk" recognizedReceiver [PyVal.int 3] []
      (setKey storeInp (RVal.str "x") emptyState)).1 storeCnt =
      some (RVal.str (natToStr 1)) := by
  exact c3_counting_before_operation_no_rollback.2.2 "kk" (PyVal.int 3)
    (setKey storeInp (RVal.str "x") emptyState) 0 "x" (by decide) (by decide)
    (Or.inl ⟨by decide, rfl⟩) (by decide)

/-- C4: On a recognized receiver, after the wrapped operation completes the
history wrapper appends `str(args)` to the list `"<qn>:inputs"` and then the
result to the list `"<qn>:outputs"` (outputs pushed onto the state produced
by the inputs push — inputs before outputs), returning the result unchanged;
and the counting wrapper's key is exactly the qualified name `qn`, with no
suffix. -/
theorem c4_history_key_naming_and_append_order (qn : String) (method : Method)
    (self : Receiver) (args : List PyVal) (kwargs : Kwargs) (st st1 : RedisState)
    (rv : PyVal) (L1 L2 : List Bytes)
    (hrec : checkRecognized self = Except.ok true)
    (hm : method self args kwargs st = (st1, Except.ok rv))
    (h1 : listIs st1 (qn ++ ":inputs") L1)
    (h2 : listIs st1 (qn ++ ":outputs") L2) :
    call_history qn method self args kwargs st =
      ((redisRpush (qn ++ ":outputs") (encodeValue rv)
        (redisRpush (qn ++ ":inputs") (strArgs args) st1).1).1, Except.ok rv) ∧
    (call_history qn method self args kwargs st).1 (qn ++ ":inputs") =
      some (RVal.list (L1 ++ [strArgs args])) ∧
    (call_history qn method self args kwargs st).1 (qn ++ ":outputs") =
      some (RVal.list (L2 ++ [encodeValue rv])) ∧
    (∀ (st0 st0i : RedisState) (n : Int),
      redisIncr qn st0 = (st0i, Except.ok n) →
      count_calls qn method self args kwargs st0 = method self args kwargs st0i) := by
  have h2b : listIs (setKey (qn ++ ":inputs") (RVal.list (L1 ++ [strArgs args])) st1)
      (qn ++ ":outputs") L2 := listIs_setKey_ne h2 (inp_ne_out qn).symm _
  have e := call_history_ok qn method self args kwargs st st1 rv L1 L2 hrec hm h1 h2
  refine ⟨?_, ?_, ?_, fun st0 st0i n h => count_calls_rec _ _ _ _ _ _ _ _ hrec h⟩
  · rw [e, rpush_of_listIs h1, rpush_of_listIs h2b]
  · rw [e]
    dsimp only
    rw [setKey_ne (inp_ne_out qn), setKey_same]
  · rw [e]
    dsimp only
    rw [setKey_same]

/-- Witness for C4: a concrete wrapped operation returning 5 on argument 1;
the two log keys receive `"(1,)"` and `"5"` in the stated order and the
result is returned unchanged. -/
theorem c4_history_key_naming_and_append_order_witness :
    call_history "m" (fun _ _ _ st => (st, Except.ok (PyVal.int 5)))
      recognizedReceiver [PyVal.int 1] [] emptyState =
      ((redisRpush ("m" ++ ":outputs") "5"
        (redisRpush ("m" ++ ":inputs") "(1,)" emptyState).1).1,
       Except.ok (PyVal.int 5)) ∧
    (call_history "m" (fun _ _ _ st => (st, Except.ok (PyVal.int 5)))
      recognizedReceiver [PyVal.int 1] [] emptyState).1 "m:inputs" =
      some (RVal.list ["(1,)"]) ∧
    (call_history "m" (fun _ _ _ st => (st, Except.ok (PyVal.int 5)))
      recognizedReceiver [PyVal.int 1] [] emptyState).1 "m:outputs" =
      some (RVal.list ["5"]) := by
  have h := c4_history_key_naming_and_append_order "m"
    (fun _ _ _ st => (st, Except.ok (PyVal.int 5))) recognizedReceiver
    [PyVal.int 1] [] emptyState emptyState (PyVal.int 5) [] []
    rfl rfl (Or.inl ⟨rfl, rfl⟩) (Or.inl ⟨rfl, rfl⟩)
  exact ⟨h.1, h.2.1, h.2.2.1⟩

/-- C5 counterexample: the claim says that a receiver whose store handle is
absent skips instrumentation silently, still runs the operation and returns
its result. On a Cache receiver with the `_redis` attribute missing, the
counting wrapper instead raises AttributeError (from the attribute access in
the `isinstance` guard) and the operation's result `7` is never returned. -/
theorem c5_counterexample_missing_handle_raises :
    count_calls "m" (fun _ _ _ st => (st, Except.ok (PyVal.int 7)))
      ⟨true, Handle.missing⟩ [] [] emptyState =
      (emptyState, Except.error PyErr.attributeError) ∧
    (count_calls "m" (fun _ _ _ st => (st, Except.ok (PyVal.int 7)))
      ⟨true, Handle.missing⟩ [] [] emptyState).2 ≠ Except.ok (PyVal.int 7) := by
  exact ⟨rfl, by decide⟩

/-- C5 (amended): when the receiver is not a Cache instance, or is a Cache
whose store handle is present but of the wrong type, both wrappers skip
their side effects silently, the wrapped operation still runs and its result
is returned unchanged. But a Cache receiver whose store handle attribute is
absent makes the guard itself raise AttributeError: in the counting wrapper
before the operation runs, and in the history wrapper after it has run
(keeping the operation's state effects but discarding its result). -/
theorem c5_instrumentation_skip_amended :
    (∀ (qn : String) (method : Method) (self : Receiver) (args : List PyVal)
        (kwargs : Kwargs) (st : RedisState),
      checkRecognized self = Except.ok false →
      count_calls qn method self args kwargs st = method self args kwargs st ∧
      call_history qn method self args kwargs st = method self args kwargs st ∧
      count_calls qn (call_history qn method) self args kwargs st =
        method self args kwargs st) ∧
    (∀ (qn : String) (method : Method) (args : List PyVal) (kwargs : Kwargs)
        (st st1 : RedisState) (rv : PyVal),
      count_calls qn method ⟨true, Handle.missing⟩ args kwargs st =
        (st, Except.error PyErr.attributeError) ∧
      (method ⟨true, Handle.missing⟩ args kwargs st = (st1, Except.ok rv) →
        call_history qn method ⟨true, Handle.missing⟩ args kwargs st =
          (st1, Except.error PyErr.attributeError))) := by
  constructor
  · intro qn method self args kwargs st hrec
    refine ⟨count_calls_skip _ _ _ _ _ _ hrec, call_history_skip _ _ _ _ _ _ hrec, ?_⟩
    rw [count_calls_skip _ _ _ _ _ _ hrec, call_history_skip _ _ _ _ _ _ hrec]
  · intro qn method args kwargs st st1 rv
    constructor
    · rfl
    · intro hm
      simp only [call_history, hm]
      rfl

/-- Witness for C5 (amended): a non-Cache receiver is skipped silently —
the wrapped operation runs on the untouched store and its result comes back. -/
theorem c5_instrumentation_skip_amended_witness :
    count_calls "m" (fun _ _ _ st => (st, Except.ok (PyVal.int 7)))
      ⟨false, Handle.missing⟩ [] [] emptyState = (emptyState, Except.ok (PyVal.int 7)) := by
  exact (c5_instrumentation_skip_amended.1 "m"
    (fun _ _ _ st => (st, Except.ok (PyVal.int 7)))
    ⟨false, Handle.missing⟩ [] [] emptyState rfl).1

/-- C6: For an absent key, `get` with no decode function returns the absent
value (no error), and `get` with a decode function applies it directly to
the absent value with no nil-guard — its outcome is whatever the decode
function does with `None`. -/
theorem c6_get_absent_no_guard (V : Type) (k : String) (st : RedisState)
    (fn : Option Bytes → Except PyErr V) (h : st k = none) :
    Cache.getRaw k st = (st, Except.ok none) ∧
    Cache.getWith k fn st = (st, fn none) := by
  constructor
  · simp only [Cache.getRaw, redisGet, h]
  · simp only [Cache.getWith, redisGet, h]

/-- Witness for C6: on a missing key, plain `get` yields the absent value,
and `get` with the float decoder propagates that decoder's own TypeError. -/
theorem c6_get_absent_no_guard_witness :
    Cache.getRaw "nope" emptyState = (emptyState, Except.ok none) ∧
    Cache.getWith "nope" pyFloat emptyState = (emptyState, Except.error PyErr.typeError) := by
  have h := c6_get_absent_no_guard PyVal "nope" emptyState pyFloat rfl
  exact ⟨h.1, h.2⟩

/-- C7: `get_str` and `get_int` return an explicit no-value result on an
absent key (not an exception, not a decoded default), and on a present
string value return its UTF-8 decoding resp. its base-10 integer value. -/
theorem c7_typed_retrieval (k : String) (st : RedisState) :
    (st k = none →
      Cache.get_str k st = (st, Except.ok none) ∧
      Cache.get_int k st = (st, Except.ok none)) ∧
    (∀ b, st k = some (RVal.str b) → Cache.get_str k st = (st, Except.ok (some b))) ∧
    (∀ z : Int, st k = some (RVal.str (intToStr z)) →
      Cache.get_int k st = (st, Except.ok (some z))) := by
  refine ⟨fun h => ⟨?_, ?_⟩, fun b h => ?_, fun z h => ?_⟩
  · simp only [Cache.get_str, redisGet, h]
  · simp only [Cache.get_int, redisGet, h]
  · simp only [Cache.get_str, redisGet, h]
  · simp only [Cache.get_int, redisGet, h, parseInt?_intToStr]

/-- Witness for C7: a store holding `"5"` under `"a"`; `get_int "a"` yields
5, and `get_str` on the unknown key `"b"` yields the no-value result. -/
theorem c7_typed_retrieval_witness :
    Cache.get_int "a" (setKey "a" (RVal.str "5") emptyState) =
      (setKey "a" (RVal.str "5") emptyState, Except.ok (some 5)) ∧
    Cache.get_str "b" (setKey "a" (RVal.str "5") emptyState) =
      (setKey "a" (RVal.str "5") emptyState, Except.ok none) := by
  constructor
  · exact (c7_typed_retrieval "a" (setKey "a" (RVal.str "5") emptyState)).2.2 5 (by decide)
  · exact ((c7_typed_retrieval "b" (setKey "a" (RVal.str "5") emptyState)).1 (by decide)).1

/-- C8: `replay` renders a header naming the operation and the number of
recorded input entries (the inputs log length, not the counter), followed by
one `"name(*input) -> output"` line per index, truncating to the shorter of
the two logs; and it never modifies any store state. -/
theorem c8_replay_format_read_only :
    (∀ (qn : String) (st : RedisState) (L1 L2 : List Bytes),
      listIs st (qn ++ ":inputs") L1 → listIs st (qn ++ ":outputs") L2 →
      replay qn st =
        (st, Except.ok ((qn ++ " was called " ++ natToStr L1.length ++ " times:") ::
          (L1.zip L2).map (fun p => qn ++ "(*" ++ p.1 ++ ") -> " ++ p.2)))) ∧
    (∀ (qn : String) (st : RedisState), (replay qn st).1 = st) := by
  constructor
  · intro qn st L1 L2 h1 h2
    simp only [replay, lrange_of_listIs h1, lrange_of_listIs h2]
  · intro qn st
    cases h1 : redisLrangeAll (qn ++ ":inputs") st with
    | error e => simp only [replay, h1]
    | ok inputs =>
      cases h2 : redisLrangeAll (qn ++ ":outputs") st with
      | error e => simp only [replay, h1, h2]
      | ok outputs => simp only [replay, h1, h2]

/-- Witness for C8: two recorded inputs but only one output; the header
reports 2 (the inputs count) and the zip truncates to a single line;
the state is untouched. -/
theorem c8_replay_format_read_only_witness :
    replay "m" (setKey "m:inputs" (RVal.list ["(1,)", "(2,)"])
      (setKey "m:outputs" (RVal.list ["r1"]) emptyState)) =
      (setKey "m:inputs" (RVal.list ["(1,)", "(2,)"])
        (setKey "m:outputs" (RVal.list ["r1"]) emptyState),
       Except.ok ["m was called 2 times:", "m(*(1,)) -> r1"]) := by
  exact c8_replay_format_read_only.1 "m"
    (setKey "m:inputs" (RVal.list ["(1,)", "(2,)"])
      (setKey "m:outputs" (RVal.list ["r1"]) emptyState))
    ["(1,)", "(2,)"] ["r1"] (Or.inr (by decide)) (Or.inr (by decide))

/-- C9: Constructing a Cache clears the entire backing store: for every key,
the flushed store holds nothing, so retrieval of any previously valid key is
absent (plain and typed), every counter reads zero and every history log is
empty. -/
theorem c9_construction_flushes_everything (st : RedisState) (k : String) :
    Cache.init st k = none ∧
    Cache.getRaw k (Cache.init st) = (Cache.init st, Except.ok none) ∧
    Cache.get_str k (Cache.init st) = (Cache.init st, Except.ok none) ∧
    Cache.get_int k (Cache.init st) = (Cache.init st, Except.ok none) ∧
    counterIs (Cache.init st) k 0 ∧
    listIs (Cache.init st) k [] :=
  ⟨rfl, rfl, rfl, rfl, Or.inl ⟨rfl, rfl⟩, Or.inl ⟨rfl, rfl⟩⟩

/-- C10: Both wrappers forward keyword arguments unchanged to the wrapped
operation (the operation below receives exactly `kwargs`) and return its
result; the recorded inputs entry is `str(args)` — a function of the
positional tuple only — and the counter and log keys are built from the
qualified name only, independent of any keyword arguments. -/
theorem c10_kwargs_forwarded_not_recorded (qn : String) (method : Method)
    (self : Receiver) (args : List PyVal) (kwargs : Kwargs)
    (st st1 st2 : RedisState) (n : Int) (rv : PyVal) (L1 L2 : List Bytes)
    (hrec : checkRecognized self = Except.ok true)
    (hincr : redisIncr qn st = (st1, Except.ok n))
    (hm : method self args kwargs st1 = (st2, Except.ok rv))
    (h1 : listIs st2 (qn ++ ":inputs") L1)
    (h2 : listIs st2 (qn ++ ":outputs") L2) :
    count_calls qn (call_history qn method) self args kwargs st =
      (setKey (qn ++ ":outputs") (RVal.list (L2 ++ [encodeValue rv]))
        (setKey (qn ++ ":inputs") (RVal.list (L1 ++ [strArgs args])) st2),
       Except.ok rv) := by
  rw [count_calls_rec _ _ _ _ _ _ _ _ hrec hincr,
    call_history_ok _ _ _ _ _ _ _ _ _ _ hrec hm h1 h2]

/-- Witness for C10: an operation whose result depends on its keyword
argument (proving the kwargs reached it unchanged), called with no
positional arguments; the inputs log records only `"()"`. -/
theorem c10_kwargs_forwarded_not_recorded_witness :
    count_calls "m" (call_history "m"
      (fun _ _ kw st =>
        (st, Except.ok (match kw with | [] => PyVal.int 0 | p :: _ => p.2))))
      recognizedReceiver [] [("x", PyVal.int 9)] emptyState =
      (setKey "m:outputs" (RVal.list ["9"])
        (setKey "m:inputs" (RVal.list ["()"])
          (setKey "m" (RVal.str "1") emptyState)),
       Except.ok (PyVal.int 9)) := by
  exact c10_kwargs_forwarded_not_recorded "m"
    (fun _ _ kw st =>
      (st, Except.ok (match kw with | [] => PyVal.int 0 | p :: _ => p.2)))
    recognizedReceiver [] [("x", PyVal.int 9)] emptyState
    (setKey "m" (RVal.str (intToStr 1)) emptyState)
    (setKey "m" (RVal.str (intToStr 1)) emptyState) 1 (PyVal.int 9) [] []
    rfl rfl rfl (Or.inl ⟨by decide, rfl⟩) (Or.inl ⟨by decide, rfl⟩)

end RedisCache
